import Mathlib

/-!
A shallow embedding of the task-orchestration core of the tiptoro backend
(`backend/gateway/context.py`, `backend/gateway/orchestrator.py`,
`backend/gateway/loader.py`), together with proofs of the behavioural
properties stated for it.

Conventions of the embedding:
* Python's in-place mutation of the `TaskContext` is rendered as explicit
  state passing.
* An exception that the code lets propagate is rendered as the `Except`
  error branch, carrying the context as it stood when the exception
  escaped (the Python caller still holds a reference to the mutated
  object).  An exception the code catches is part of the ordinary return
  value.
* Skill handlers and skip-conditions are arbitrary functions that may
  either return a value or raise, modelled as `_ → Except String _`
  where the `String` is the exception message (`str(e)` in the source).
* `asyncio` scheduling is immaterial to the properties below: `await`ing
  a handler (directly or via `asyncio.to_thread`) is modelled as a plain
  call, which is exactly the "step does not return until the handler has
  completed or failed" contract.
* Python `dict`s whose values the core never inspects (`vision_confidence`,
  `meta`) are modelled as association lists over `String`; float values
  are abstracted as their textual form, since no claim touches them.
-/

/-- `TaskStatus` from `gateway/context.py`. -/
inductive TaskStatus where
  | pending
  | running
  | awaiting_human
  | completed
  | failed
deriving DecidableEq, Repr

/-- One record of the error trail, as appended by `TaskContext.add_error`
in `gateway/context.py`: `{"skill": skill, "message": message}`. -/
structure ErrorRecord where
  skill : String
  message : String
deriving DecidableEq, Repr

/-- `TaskContext` from `gateway/context.py`, with every dataclass field. -/
structure TaskContext where
  task_id : String
  user_id : String
  source : String
  status : TaskStatus
  image_source : String
  clean_question_image_url : String
  handwritten_answer_image_url : String
  raw_question_text : String
  raw_answer_text : String
  vision_confidence : List (String × String)
  verified_question_text : String
  verified_answer_text : String
  subject : String
  grade : String
  error_reason : String
  question_id : Option Int
  record_id : Option Int
  is_duplicate_question : Bool
  knowledge_nodes : List String
  analysis_summary : String
  similar_question_keywords : List String
  errors : List ErrorRecord
  meta : List (String × String)
deriving DecidableEq, Repr

/-- `TaskContext.add_error`: appends `{"skill": skill, "message": message}`
to `self.errors` and sets `self.status = TaskStatus.FAILED`. -/
def TaskContext.add_error (ctx : TaskContext) (skill : String) (message : String) :
    TaskContext :=
  { ctx with
    errors := ctx.errors ++ [⟨skill, message⟩]
    status := TaskStatus.failed }

/-- A bound skill handler, `handler(ctx) -> ctx`; it may raise, with the
error branch carrying the exception message. -/
def HandlerFn : Type := TaskContext → Except String TaskContext

/-- A skip-condition predicate attached to a `Step`; a Python callable,
so it too may raise. -/
def CondFn : Type := TaskContext → Except String Bool

/-- `SkillMeta` from `gateway/loader.py`: name, description, the skill's
directory (a `Path`, modelled as its string), and the optional bound
handler. -/
structure SkillMeta where
  name : String
  description : String
  skill_dir : String
  handler : Option HandlerFn

/-- The `SkillRegistry._registry` dict: an association list from skill
name to `SkillMeta`, in insertion order (Python dicts preserve it). -/
abbrev Registry := List (String × SkillMeta)

/-- Lookup in the registry dict.  `SkillRegistry.get` raises `KeyError`
when the name is absent; the raise is modelled at the call site from the
`none` result. -/
def SkillRegistry.get? : Registry → String → Option SkillMeta
  | [], _ => none
  | (k, v) :: rest, n => if k = n then some v else SkillRegistry.get? rest n

/-- A `Step` from `gateway/orchestrator.py`: a skill name, the
`await_human` suspension flag, and the optional skip-condition. -/
structure Step where
  skill_name : String
  await_human : Bool
  condition : Option CondFn

/-- The exceptions the core lets propagate (uncaught by `Step.run` and
`Orchestrator.run`): `KeyError` from `SkillRegistry.get`, the
`RuntimeError` for a registered-but-unbound handler, and whatever a
skip-condition callable raises. -/
inductive UncaughtExn where
  | keyError (skill : String)
  | handlerUnbound (skill : String)
  | fromCondition (msg : String)
deriving DecidableEq, Repr

/-- Body of `Step.run` after the skip-condition check: resolve the skill
via `registry.get` (raises `KeyError` if absent), raise `RuntimeError` if
no handler is bound, set status to `RUNNING`, invoke the handler; a
handler exception is caught and turned into `add_error` (the context at
that point is the pre-handler one with status `RUNNING`); on success the
`await_human` flag sets status `AWAITING_HUMAN`. -/
def Step.runCore (s : Step) (reg : Registry) (ctx : TaskContext) :
    Except (UncaughtExn × TaskContext) TaskContext :=
  match SkillRegistry.get? reg s.skill_name with
  | none => .error (.keyError s.skill_name, ctx)
  | some m =>
    match m.handler with
    | none => .error (.handlerUnbound s.skill_name, ctx)
    | some h =>
      let ctx1 := { ctx with status := TaskStatus.running }
      match h ctx1 with
      | .error msg => .ok (ctx1.add_error s.skill_name msg)
      | .ok ctx2 =>
        if s.await_human then .ok { ctx2 with status := TaskStatus.awaiting_human }
        else .ok ctx2

/-- `Step.run` from `gateway/orchestrator.py`.  The condition check
`if self.condition and not self.condition(ctx): return ctx` is outside
any `try`, so an exception raised by the condition propagates. -/
def Step.run (s : Step) (reg : Registry) (ctx : TaskContext) :
    Except (UncaughtExn × TaskContext) TaskContext :=
  match s.condition with
  | none => s.runCore reg ctx
  | some cond =>
    match cond ctx with
    | .error msg => .error (.fromCondition msg, ctx)
    | .ok b => if b then s.runCore reg ctx else .ok ctx

/-- The loop of `Orchestrator.run`, with the `skip` flag threaded
explicitly.  While `skip` is set, steps are only compared against
`resume_after` (a match clears the flag, and the matching step itself is
still skipped).  After each executed step the loop halts on `FAILED` or
`AWAITING_HUMAN`; when the loop ends, a status still `RUNNING` becomes
`COMPLETED`. -/
def Orchestrator.runAux (reg : Registry) (resume_after : Option String) :
    List Step → Bool → TaskContext → Except (UncaughtExn × TaskContext) TaskContext
  | [], _, ctx =>
    .ok (if ctx.status = TaskStatus.running then
          { ctx with status := TaskStatus.completed }
         else ctx)
  | step :: rest, skip, ctx =>
    if skip then
      if resume_after = some step.skill_name then
        Orchestrator.runAux reg resume_after rest false ctx
      else
        Orchestrator.runAux reg resume_after rest true ctx
    else
      match step.run reg ctx with
      | .error e => .error e
      | .ok ctx1 =>
        if ctx1.status = TaskStatus.failed then .ok ctx1
        else if ctx1.status = TaskStatus.awaiting_human then .ok ctx1
        else Orchestrator.runAux reg resume_after rest false ctx1

/-- `Orchestrator.run(ctx, resume_after)`.  The orchestrator's `_steps`
list is passed explicitly, as is the module-global `registry`.
`skip = resume_after is not None` initialises the flag. -/
def Orchestrator.run (reg : Registry) (steps : List Step) (ctx : TaskContext)
    (resume_after : Option String) : Except (UncaughtExn × TaskContext) TaskContext :=
  Orchestrator.runAux reg resume_after steps resume_after.isSome ctx

/-- `Orchestrator.add_step`: appends a `Step` to `self._steps` (the
fluent `return self` is the returned list). -/
def Orchestrator.add_step (steps : List Step) (skill_name : String)
    (await_human : Bool) (condition : Option CondFn) : List Step :=
  steps ++ [⟨skill_name, await_human, condition⟩]

/-- Observation: within `Step.run` on this context, is the bound handler
actually invoked?  True exactly when the skip-condition passes (absent
or returning true), the skill is in the registry, and a handler is
bound — the conditions under which control reaches the `try` block. -/
def Step.invokes (s : Step) (reg : Registry) (ctx : TaskContext) : Bool :=
  (match s.condition with
   | none => true
   | some cond =>
     match cond ctx with
     | .ok b => b
     | .error _ => false)
  &&
  (match SkillRegistry.get? reg s.skill_name with
   | some m => m.handler.isSome
   | none => false)

/-- The sequence of skill names whose handlers `Orchestrator.run`'s loop
invokes, recorded in invocation order.  It mirrors `Orchestrator.runAux`
branch for branch, adding `step.skill_name` exactly when `Step.run`
reaches its handler call. -/
def Orchestrator.traceAux (reg : Registry) (resume_after : Option String) :
    List Step → Bool → TaskContext → List String
  | [], _, _ => []
  | step :: rest, skip, ctx =>
    if skip then
      if resume_after = some step.skill_name then
        Orchestrator.traceAux reg resume_after rest false ctx
      else
        Orchestrator.traceAux reg resume_after rest true ctx
    else
      let here := if step.invokes reg ctx then [step.skill_name] else []
      match step.run reg ctx with
      | .error _ => here
      | .ok ctx1 =>
        if ctx1.status = TaskStatus.failed then here
        else if ctx1.status = TaskStatus.awaiting_human then here
        else here ++ Orchestrator.traceAux reg resume_after rest false ctx1

/-- The handler-invocation trace of a full `Orchestrator.run` call. -/
def Orchestrator.trace (reg : Registry) (steps : List Step) (ctx : TaskContext)
    (resume_after : Option String) : List String :=
  Orchestrator.traceAux reg resume_after steps resume_after.isSome ctx

/-- The steps strictly after the first one whose `skill_name` equals
`target` (and `[]` when none matches) — the suffix the resume semantics
select. -/
def dropThrough (target : String) : List Step → List Step
  | [] => []
  | step :: rest =>
    if target = step.skill_name then rest else dropThrough target rest

/-- The skill names the spec plans for one `run` call: all steps in
construction order without a resume marker, and the strict suffix after
the first match with one. -/
def plannedSkills (resume_after : Option String) (steps : List Step) : List String :=
  match resume_after with
  | none => steps.map Step.skill_name
  | some t => (dropThrough t steps).map Step.skill_name

/-!  The skill loader (`gateway/loader.py`).  `load_all` walks the
filesystem; the embedding abstracts that walk as an input value: the
existence bit of `SKILLS_ROOT` and, per directory entry of
`sorted(SKILLS_ROOT.iterdir())`, whether it is a directory, whether it
contains a `SKILL.md`, and the outcome of `_parse_skill_md` on it
(`none` both for a file not starting with `---` and for a frontmatter
that fails to parse — either way the entry is skipped). -/

/-- One entry of `sorted(SKILLS_ROOT.iterdir())`, abstracted. -/
structure DirEntry where
  is_dir : Bool
  has_skill_md : Bool
  parsed : Option SkillMeta

/-- The part of the filesystem `SkillRegistry.load_all` reads. -/
structure SkillsFS where
  root_exists : Bool
  entries : List DirEntry

/-- The exception `load_all` raises: `FileNotFoundError` for a missing
skills directory. -/
inductive LoadError where
  | fileNotFound
deriving DecidableEq, Repr

/-- Python dict assignment `self._registry[name] = meta`: replaces in
place when the key exists (keeping its insertion-order position),
appends otherwise. -/
def SkillRegistry.insert (reg : Registry) (k : String) (m : SkillMeta) : Registry :=
  match reg with
  | [] => [(k, m)]
  | (k0, m0) :: rest =>
    if k0 = k then (k0, m) :: rest
    else (k0, m0) :: SkillRegistry.insert rest k m

/-- `SkillRegistry.load_all`: first `self._registry.clear()`, then the
existence check on `SKILLS_ROOT` (raising `FileNotFoundError` if
absent), then the scan.  The result pairs the registry contents after
the call with the exception, if one was raised; the prior contents are
discarded by the clear either way. -/
def SkillRegistry.load_all (fs : SkillsFS) (_prior : Registry) :
    Registry × Option LoadError :=
  let cleared : Registry := []
  if fs.root_exists = false then (cleared, some LoadError.fileNotFound)
  else
    (fs.entries.foldl
      (fun acc e =>
        if e.is_dir = false then acc
        else if e.has_skill_md = false then acc
        else
          match e.parsed with
          | some m => SkillRegistry.insert acc m.name m
          | none => acc)
      cleared,
     none)

/-- `SkillRegistry.list_skills`: the keys of the registry dict, in
insertion order. -/
def SkillRegistry.list_skills (reg : Registry) : List String :=
  reg.map Prod.fst

/-- Decidable equality of `Except` results, so that runs on concrete
inputs can be checked by evaluation. -/
instance {ε α : Type} [DecidableEq ε] [DecidableEq α] : DecidableEq (Except ε α) :=
  fun x y =>
    match x, y with
    | .ok a, .ok b =>
      if h : a = b then isTrue (by rw [h])
      else isFalse (by intro hc; cases hc; exact h rfl)
    | .error a, .error b =>
      if h : a = b then isTrue (by rw [h])
      else isFalse (by intro hc; cases hc; exact h rfl)
    | .ok _, .error _ => isFalse (by intro hc; cases hc)
    | .error _, .ok _ => isFalse (by intro hc; cases hc)

/-!  Concrete fixtures used by the witnesses and counterexamples. -/

/-- A fresh context, every field at its dataclass default (with a fixed
task id in place of the generated uuid). -/
def baseCtx : TaskContext :=
  { task_id := "task-1"
    user_id := ""
    source := "web"
    status := TaskStatus.pending
    image_source := ""
    clean_question_image_url := ""
    handwritten_answer_image_url := ""
    raw_question_text := ""
    raw_answer_text := ""
    vision_confidence := []
    verified_question_text := ""
    verified_answer_text := ""
    subject := ""
    grade := ""
    error_reason := ""
    question_id := none
    record_id := none
    is_duplicate_question := false
    knowledge_nodes := []
    analysis_summary := ""
    similar_question_keywords := []
    errors := []
    meta := [] }

/-- A handler that completes and leaves the context as given. -/
def passHandler : HandlerFn := fun c => .ok c

/-- A handler that always raises with message `"boom"`. -/
def boomHandler : HandlerFn := fun _ => .error "boom"

/-- A handler that writes a payload field (a mutation marker). -/
def markHandler : HandlerFn := fun c => .ok { c with analysis_summary := "MUTATED" }

/-- A registry with one skill, `alpha`, bound to `passHandler`. -/
def regPass : Registry := [("alpha", ⟨"alpha", "", "skills/alpha", some passHandler⟩)]

/-- A registry with one skill, `alpha`, bound to `boomHandler`. -/
def regBoom : Registry := [("alpha", ⟨"alpha", "", "skills/alpha", some boomHandler⟩)]

/-- A registry with one skill, `alpha`, bound to `markHandler`. -/
def regMark : Registry := [("alpha", ⟨"alpha", "", "skills/alpha", some markHandler⟩)]

/-- A registry where `alpha` raises and `beta` completes. -/
def regBoomPass : Registry :=
  [("alpha", ⟨"alpha", "", "skills/alpha", some boomHandler⟩),
   ("beta", ⟨"beta", "", "skills/beta", some passHandler⟩)]

/-- The step running `alpha`, no suspension, no condition. -/
def stepAlpha : Step := ⟨"alpha", false, none⟩

/-- The step running `beta`, no suspension, no condition. -/
def stepBeta : Step := ⟨"beta", false, none⟩

/-- A step whose skip-condition always raises with message `"cond-boom"`. -/
def stepBadCond : Step := ⟨"alpha", false, some (fun _ => .error "cond-boom")⟩

/-- The step running `alpha` flagged as a human-suspension point. -/
def stepAwait : Step := ⟨"alpha", true, none⟩

/-- A registry where `alpha` is discovered but no handler is bound. -/
def regUnbound : Registry := [("alpha", ⟨"alpha", "", "skills/alpha", none⟩)]

/-- Every bound handler of the registry, started from the `RUNNING`
status `Step.run` sets just before the call, never hands back a
`PENDING` context on success. -/
def HandlersNonPending (reg : Registry) : Prop :=
  ∀ (n : String) (m : SkillMeta) (h : HandlerFn) (c c' : TaskContext),
    SkillRegistry.get? reg n = some m → m.handler = some h →
    c.status = TaskStatus.running → h c = .ok c' →
    c'.status ≠ TaskStatus.pending

/-- Every bound handler of the registry only ever extends the error
trail: the trail it receives is a prefix of the trail it returns. -/
def HandlersKeepErrors (reg : Registry) : Prop :=
  ∀ (n : String) (m : SkillMeta) (h : HandlerFn) (c c' : TaskContext),
    SkillRegistry.get? reg n = some m → m.handler = some h →
    h c = .ok c' → c.errors <+: c'.errors

/-!  Helper lemmas about the loop of `Orchestrator.run`. -/

/-- The loop never hands back a context whose status is `RUNNING`: the
only early returns are on `FAILED` and `AWAITING_HUMAN`, and the final
fix-up turns `RUNNING` into `COMPLETED`. -/
theorem runAux_status_ne_running (reg : Registry) (ra : Option String) :
    ∀ (steps : List Step) (skip : Bool) (ctx ctx' : TaskContext),
      Orchestrator.runAux reg ra steps skip ctx = .ok ctx' →
      ctx'.status ≠ TaskStatus.running := by
  intro steps
  induction steps with
  | nil =>
    intro skip ctx ctx' h
    simp only [Orchestrator.runAux, Except.ok.injEq] at h
    split at h
    · cases h; simp
    · cases h; next hne => exact hne
  | cons s rest ih =>
    intro skip ctx ctx' h
    cases skip with
    | true =>
      simp only [Orchestrator.runAux, if_true] at h
      by_cases hra : ra = some s.skill_name
      · rw [if_pos hra] at h; exact ih false ctx ctx' h
      · rw [if_neg hra] at h; exact ih true ctx ctx' h
    | false =>
      simp only [Orchestrator.runAux, Bool.false_eq_true, if_false] at h
      cases hs : Step.run s reg ctx with
      | error e => rw [hs] at h; cases h
      | ok c1 =>
        rw [hs] at h
        simp only [] at h
        by_cases hf : c1.status = TaskStatus.failed
        · rw [if_pos hf] at h; cases h; simp [hf]
        · rw [if_neg hf] at h
          by_cases ha : c1.status = TaskStatus.awaiting_human
          · rw [if_pos ha] at h; cases h; simp [ha]
          · rw [if_neg ha] at h; exact ih false c1 ctx' h

/-- `Step.runCore` never returns a `PENDING` context when every handler
in the registry respects `HandlersNonPending`: the step sets `RUNNING`
just before the call, a caught handler exception yields `FAILED`, and
the suspension flag yields `AWAITING_HUMAN`. -/
theorem stepRunCore_status_ne_pending (reg : Registry) (s : Step)
    (ctx c1 : TaskContext) (hH : HandlersNonPending reg)
    (h : s.runCore reg ctx = .ok c1) : c1.status ≠ TaskStatus.pending := by
  unfold Step.runCore at h
  cases hg : SkillRegistry.get? reg s.skill_name with
  | none => rw [hg] at h; cases h
  | some m =>
    rw [hg] at h
    simp only [] at h
    cases hh : m.handler with
    | none => rw [hh] at h; cases h
    | some f =>
      rw [hh] at h
      simp only [] at h
      cases hf : f { ctx with status := TaskStatus.running } with
      | error msg =>
        rw [hf] at h
        cases h
        simp [TaskContext.add_error]
      | ok c2 =>
        rw [hf] at h
        simp only [] at h
        by_cases hw : s.await_human = true
        · rw [if_pos hw] at h; cases h; simp
        · rw [if_neg hw] at h
          cases h
          exact hH s.skill_name m f _ _ hg hh rfl hf

/-- `Step.run` hands back no `PENDING` context when the incoming one is
not `PENDING` and the registry's handlers respect `HandlersNonPending`
(a condition-skip passes the context through, every other successful
path goes through `Step.runCore`). -/
theorem stepRun_status_ne_pending (reg : Registry) (s : Step)
    (ctx c1 : TaskContext) (hH : HandlersNonPending reg)
    (hctx : ctx.status ≠ TaskStatus.pending)
    (h : s.run reg ctx = .ok c1) : c1.status ≠ TaskStatus.pending := by
  unfold Step.run at h
  cases hc : s.condition with
  | none =>
    rw [hc] at h
    exact stepRunCore_status_ne_pending reg s ctx c1 hH h
  | some cond =>
    rw [hc] at h
    simp only [] at h
    cases hb : cond ctx with
    | error msg => rw [hb] at h; cases h
    | ok b =>
      rw [hb] at h
      simp only [] at h
      by_cases hbt : b = true
      · rw [if_pos hbt] at h
        exact stepRunCore_status_ne_pending reg s ctx c1 hH h
      · rw [if_neg hbt] at h; cases h; exact hctx

/-- The loop preserves "status is not `PENDING`" (under
`HandlersNonPending`): every executed step leaves a non-`PENDING`
status, and the final fix-up only ever writes `COMPLETED`. -/
theorem runAux_status_ne_pending (reg : Registry) (ra : Option String)
    (hH : HandlersNonPending reg) :
    ∀ (steps : List Step) (skip : Bool) (ctx ctx' : TaskContext),
      ctx.status ≠ TaskStatus.pending →
      Orchestrator.runAux reg ra steps skip ctx = .ok ctx' →
      ctx'.status ≠ TaskStatus.pending := by
  intro steps
  induction steps with
  | nil =>
    intro skip ctx ctx' hctx h
    simp only [Orchestrator.runAux, Except.ok.injEq] at h
    split at h
    · cases h; simp
    · cases h; exact hctx
  | cons s rest ih =>
    intro skip ctx ctx' hctx h
    cases skip with
    | true =>
      simp only [Orchestrator.runAux, if_true] at h
      by_cases hra : ra = some s.skill_name
      · rw [if_pos hra] at h; exact ih false ctx ctx' hctx h
      · rw [if_neg hra] at h; exact ih true ctx ctx' hctx h
    | false =>
      simp only [Orchestrator.runAux, Bool.false_eq_true, if_false] at h
      cases hs : Step.run s reg ctx with
      | error e => rw [hs] at h; cases h
      | ok c1 =>
        have hc1 : c1.status ≠ TaskStatus.pending :=
          stepRun_status_ne_pending reg s ctx c1 hH hctx hs
        rw [hs] at h
        simp only [] at h
        by_cases hf : c1.status = TaskStatus.failed
        · rw [if_pos hf] at h; cases h; exact hc1
        · rw [if_neg hf] at h
          by_cases ha : c1.status = TaskStatus.awaiting_human
          · rw [if_pos ha] at h; cases h; exact hc1
          · rw [if_neg ha] at h; exact ih false c1 ctx' hc1 h

/-- While the `skip` flag stays set (no step matches the resume target),
the loop touches nothing and ends in the final status fix-up. -/
theorem runAux_skip_all (reg : Registry) (t : String) (ctx : TaskContext) :
    ∀ (steps : List Step), (∀ s ∈ steps, s.skill_name ≠ t) →
      Orchestrator.runAux reg (some t) steps true ctx =
        .ok (if ctx.status = TaskStatus.running then
              { ctx with status := TaskStatus.completed }
             else ctx) := by
  intro steps
  induction steps with
  | nil => intro _; rfl
  | cons s rest ih =>
    intro hmem
    have hne : (some t : Option String) ≠ some s.skill_name := by
      intro hcon
      exact hmem s (List.mem_cons_self s rest) (Option.some.inj hcon).symm
    simp only [Orchestrator.runAux, if_true]
    rw [if_neg hne]
    exact ih (fun x hx => hmem x (List.mem_cons_of_mem s hx))

/-- Reflexivity of the trail-extension order. -/
theorem errors_extend_refl (l : List ErrorRecord) : l <+: l :=
  ⟨[], List.append_nil l⟩

/-- Appending one record extends the trail. -/
theorem errors_extend_append (l : List ErrorRecord) (x : ErrorRecord) :
    l <+: l ++ [x] :=
  ⟨[x], rfl⟩

/-- Transitivity of the trail-extension order. -/
theorem errors_extend_trans {a b c : List ErrorRecord}
    (h1 : a <+: b) (h2 : b <+: c) : a <+: c := by
  obtain ⟨t1, ht1⟩ := h1
  obtain ⟨t2, ht2⟩ := h2
  exact ⟨t1 ++ t2, by rw [← List.append_assoc, ht1, ht2]⟩

/-- `Step.runCore` only extends the error trail, on every exit path
(ordinary return or propagated exception), provided the registry's
handlers respect `HandlersKeepErrors`. -/
theorem stepRunCore_errors_extend (reg : Registry) (s : Step) (ctx : TaskContext)
    (hE : HandlersKeepErrors reg) :
    (∀ c1, s.runCore reg ctx = .ok c1 → ctx.errors <+: c1.errors) ∧
    (∀ e c1, s.runCore reg ctx = .error (e, c1) → ctx.errors <+: c1.errors) := by
  unfold Step.runCore
  cases hg : SkillRegistry.get? reg s.skill_name with
  | none =>
    constructor
    · intro c1 h; cases h
    · intro e c1 h; cases h; exact errors_extend_refl _
  | some m =>
    simp only []
    cases hh : m.handler with
    | none =>
      constructor
      · intro c1 h; cases h
      · intro e c1 h; cases h; exact errors_extend_refl _
    | some f =>
      simp only []
      cases hf : f { ctx with status := TaskStatus.running } with
      | error msg =>
        simp only []
        constructor
        · intro c1 h
          cases h
          simp only [TaskContext.add_error]
          exact errors_extend_append _ _
        · intro e c1 h; cases h
      | ok c2 =>
        have hpre : ctx.errors <+: c2.errors :=
          hE s.skill_name m f { ctx with status := TaskStatus.running } c2 hg hh hf
        simp only []
        by_cases hw : s.await_human = true
        · rw [if_pos hw]
          constructor
          · intro c1 h; cases h; exact hpre
          · intro e c1 h; cases h
        · rw [if_neg hw]
          constructor
          · intro c1 h; cases h; exact hpre
          · intro e c1 h; cases h

/-- `Step.run` only extends the error trail, on every exit path. -/
theorem stepRun_errors_extend (reg : Registry) (s : Step) (ctx : TaskContext)
    (hE : HandlersKeepErrors reg) :
    (∀ c1, s.run reg ctx = .ok c1 → ctx.errors <+: c1.errors) ∧
    (∀ e c1, s.run reg ctx = .error (e, c1) → ctx.errors <+: c1.errors) := by
  unfold Step.run
  cases hc : s.condition with
  | none => exact stepRunCore_errors_extend reg s ctx hE
  | some cond =>
    simp only []
    cases hb : cond ctx with
    | error msg =>
      constructor
      · intro c1 h; cases h
      · intro e c1 h; cases h; exact errors_extend_refl _
    | ok b =>
      simp only []
      by_cases hbt : b = true
      · rw [if_pos hbt]
        exact stepRunCore_errors_extend reg s ctx hE
      · rw [if_neg hbt]
        constructor
        · intro c1 h; cases h; exact errors_extend_refl _
        · intro e c1 h; cases h

/-- The loop of `Orchestrator.run` only extends the error trail, on
every exit path. -/
theorem runAux_errors_extend (reg : Registry) (ra : Option String)
    (hE : HandlersKeepErrors reg) :
    ∀ (steps : List Step) (skip : Bool) (ctx : TaskContext),
      (∀ ctx', Orchestrator.runAux reg ra steps skip ctx = .ok ctx' →
        ctx.errors <+: ctx'.errors) ∧
      (∀ e c', Orchestrator.runAux reg ra steps skip ctx = .error (e, c') →
        ctx.errors <+: c'.errors) := by
  intro steps
  induction steps with
  | nil =>
    intro skip ctx
    constructor
    · intro ctx' h
      simp only [Orchestrator.runAux, Except.ok.injEq] at h
      split at h
      · cases h; exact errors_extend_refl _
      · cases h; exact errors_extend_refl _
    · intro e c' h
      simp only [Orchestrator.runAux] at h
      cases h
  | cons s rest ih =>
    intro skip ctx
    cases skip with
    | true =>
      simp only [Orchestrator.runAux, if_true]
      by_cases hra : ra = some s.skill_name
      · rw [if_pos hra]; exact ih false ctx
      · rw [if_neg hra]; exact ih true ctx
    | false =>
      simp only [Orchestrator.runAux, Bool.false_eq_true, if_false]
      cases hs : Step.run s reg ctx with
      | error e0 =>
        simp only []
        constructor
        · intro c1 h; cases h
        · intro e c' h
          cases h
          exact (stepRun_errors_extend reg s ctx hE).2 e c' hs
      | ok c1 =>
        have hpre : ctx.errors <+: c1.errors :=
          (stepRun_errors_extend reg s ctx hE).1 c1 hs
        simp only []
        by_cases hf : c1.status = TaskStatus.failed
        · rw [if_pos hf]
          constructor
          · intro ctx' h; cases h; exact hpre
          · intro e c' h; cases h
        · rw [if_neg hf]
          by_cases ha : c1.status = TaskStatus.awaiting_human
          · rw [if_pos ha]
            constructor
            · intro ctx' h; cases h; exact hpre
            · intro e c' h; cases h
          · rw [if_neg ha]
            constructor
            · intro ctx' h
              exact errors_extend_trans hpre ((ih false c1).1 ctx' h)
            · intro e c' h
              exact errors_extend_trans hpre ((ih false c1).2 e c' h)

/-- Once the `skip` flag is clear, the invocation trace follows the
remaining steps in order, each contributing its skill name at most once:
it is a sublist of the remaining construction order. -/
theorem traceAux_sublist_names (reg : Registry) (ra : Option String) :
    ∀ (steps : List Step) (ctx : TaskContext),
      List.Sublist (Orchestrator.traceAux reg ra steps false ctx) (steps.map Step.skill_name) := by
  intro steps
  induction steps with
  | nil => intro ctx; simp [Orchestrator.traceAux]
  | cons s rest ih =>
    intro ctx
    simp only [Orchestrator.traceAux, Bool.false_eq_true, if_false, List.map_cons]
    cases hs : Step.run s reg ctx with
    | error e =>
      simp only []
      by_cases hin : Step.invokes s reg ctx = true
      · rw [if_pos hin]
        exact List.Sublist.cons₂ s.skill_name (List.nil_sublist _)
      · rw [if_neg hin]
        exact List.nil_sublist _
    | ok c1 =>
      simp only []
      by_cases hf : c1.status = TaskStatus.failed
      · rw [if_pos hf]
        by_cases hin : Step.invokes s reg ctx = true
        · rw [if_pos hin]
          exact List.Sublist.cons₂ s.skill_name (List.nil_sublist _)
        · rw [if_neg hin]
          exact List.nil_sublist _
      · rw [if_neg hf]
        by_cases ha : c1.status = TaskStatus.awaiting_human
        · rw [if_pos ha]
          by_cases hin : Step.invokes s reg ctx = true
          · rw [if_pos hin]
            exact List.Sublist.cons₂ s.skill_name (List.nil_sublist _)
          · rw [if_neg hin]
            exact List.nil_sublist _
        · rw [if_neg ha]
          by_cases hin : Step.invokes s reg ctx = true
          · rw [if_pos hin]
            exact List.Sublist.cons₂ s.skill_name (ih c1)
          · rw [if_neg hin]
            simp only [List.nil_append]
            exact List.Sublist.cons s.skill_name (ih c1)

/-- While the `skip` flag is set, the trace of the loop equals the trace
of the suffix strictly after the first step matching the resume target,
run with the flag clear. -/
theorem traceAux_skip_eq_dropThrough (reg : Registry) (t : String) :
    ∀ (steps : List Step) (ctx : TaskContext),
      Orchestrator.traceAux reg (some t) steps true ctx =
        Orchestrator.traceAux reg (some t) (dropThrough t steps) false ctx := by
  intro steps
  induction steps with
  | nil => intro ctx; rfl
  | cons s rest ih =>
    intro ctx
    by_cases ht : t = s.skill_name
    · simp only [Orchestrator.traceAux, if_true, dropThrough]
      rw [if_pos (by rw [ht]), if_pos ht]
    · simp only [Orchestrator.traceAux, if_true, dropThrough]
      rw [if_neg (fun hcon => ht (Option.some.inj hcon)), if_neg ht]
      exact ih ctx

/-!  The claimed properties. -/

/-- Claim C1, counterexample: on the empty pipeline (one of the edge
cases the claim covers), `run` hands a `PENDING` context straight back:
the returned status is `PENDING`, not one of `COMPLETED`, `FAILED`,
`AWAITING_HUMAN` — the final status fix-up only rewrites `RUNNING`. -/
theorem run_pending_terminal_cex :
    Orchestrator.run [] [] baseCtx none = .ok baseCtx ∧
    ¬(baseCtx.status = TaskStatus.completed ∨
      baseCtx.status = TaskStatus.failed ∨
      baseCtx.status = TaskStatus.awaiting_human) := by
  constructor
  · rfl
  · decide

/-- Claim C1 (amended): `Orchestrator.run` never returns a `RUNNING`
context, but it returns `PENDING` unchanged when no handler is invoked
(empty pipeline, unmatched resume target, or every step
condition-skipped).  Whenever the first step carries no skip-condition —
so the loop surely reaches its handler — and no registry handler hands
back a `PENDING` status, a successful `run` ends in a terminal status:
`COMPLETED`, `FAILED`, or `AWAITING_HUMAN`. -/
theorem run_pending_terminal_amended :
    (∀ (reg : Registry) (steps : List Step) (ctx ctx' : TaskContext)
        (ra : Option String),
        Orchestrator.run reg steps ctx ra = .ok ctx' →
        ctx'.status ≠ TaskStatus.running) ∧
    (∀ (reg : Registry) (s : Step) (rest : List Step) (ctx ctx' : TaskContext),
        HandlersNonPending reg → s.condition = none →
        Orchestrator.run reg (s :: rest) ctx none = .ok ctx' →
        (ctx'.status = TaskStatus.completed ∨ ctx'.status = TaskStatus.failed ∨
         ctx'.status = TaskStatus.awaiting_human)) := by
  constructor
  · intro reg steps ctx ctx' ra h
    exact runAux_status_ne_running reg ra steps ra.isSome ctx ctx' h
  · intro reg s rest ctx ctx' hH hcond h
    have hstep : ∀ c1, Step.run s reg ctx = .ok c1 → c1.status ≠ TaskStatus.pending := by
      intro c1 hs
      unfold Step.run at hs
      rw [hcond] at hs
      exact stepRunCore_status_ne_pending reg s ctx c1 hH hs
    unfold Orchestrator.run at h
    simp only [Option.isSome_none, Orchestrator.runAux, Bool.false_eq_true,
      if_false] at h
    cases hs : Step.run s reg ctx with
    | error e => rw [hs] at h; cases h
    | ok c1 =>
      have hc1 : c1.status ≠ TaskStatus.pending := hstep c1 hs
      rw [hs] at h
      simp only [] at h
      have hterm : ctx'.status ≠ TaskStatus.pending ∧
          ctx'.status ≠ TaskStatus.running := by
        by_cases hf : c1.status = TaskStatus.failed
        · rw [if_pos hf] at h
          cases h
          constructor
          · exact hc1
          · rw [hf]; decide
        · rw [if_neg hf] at h
          by_cases ha : c1.status = TaskStatus.awaiting_human
          · rw [if_pos ha] at h
            cases h
            constructor
            · exact hc1
            · rw [ha]; decide
          · rw [if_neg ha] at h
            exact ⟨runAux_status_ne_pending reg none hH rest false c1 ctx' hc1 h,
                   runAux_status_ne_running reg none rest false c1 ctx' h⟩
      cases hx : ctx'.status with
      | pending => exact absurd hx hterm.1
      | running => exact absurd hx hterm.2
      | awaiting_human => exact Or.inr (Or.inr rfl)
      | completed => exact Or.inl rfl
      | failed => exact Or.inr (Or.inl rfl)

/-- Claim C1, witness for the amended theorem: the one-step `alpha`
pipeline with the pass-through handler takes the fresh context to a
terminal status. -/
theorem run_pending_terminal_amended_witness :
    ({ baseCtx with status := TaskStatus.completed } : TaskContext).status =
        TaskStatus.completed ∨
    ({ baseCtx with status := TaskStatus.completed } : TaskContext).status =
        TaskStatus.failed ∨
    ({ baseCtx with status := TaskStatus.completed } : TaskContext).status =
        TaskStatus.awaiting_human :=
  run_pending_terminal_amended.2 regPass stepAlpha [] baseCtx
    { baseCtx with status := TaskStatus.completed }
    (by
      intro n m h c c' h1 h2 h3 h4
      simp only [regPass, SkillRegistry.get?] at h1
      by_cases hn : "alpha" = n
      · rw [if_pos hn] at h1
        cases h1
        cases h2
        cases h4
        rw [h3]
        decide
      · rw [if_neg hn] at h1
        cases h1)
    rfl
    (by decide)

/-- Claim C2, evidence at the failing input: `Orchestrator.run` has no
guard on terminal status.  On a context whose status is already
`COMPLETED` and with no resume marker, the single `alpha` step's handler
is invoked (the trace is non-empty) and it mutates the
`analysis_summary` payload field, which the input context did not carry
— contradicting "no further step executes against a terminal context". -/
theorem run_completed_reexecutes_bug :
    Orchestrator.run regMark [stepAlpha]
        { baseCtx with status := TaskStatus.completed } none =
      .ok { baseCtx with status := TaskStatus.completed, analysis_summary := "MUTATED" } ∧
    Orchestrator.trace regMark [stepAlpha]
        { baseCtx with status := TaskStatus.completed } none = ["alpha"] ∧
    ({ baseCtx with status := TaskStatus.completed } : TaskContext).analysis_summary ≠
      "MUTATED" := by
  refine ⟨by decide, by decide, by decide⟩

/-- Claim C3, counterexample: with a resume target matching no step, a
context whose status is `RUNNING` does *not* come back unchanged — the
final fix-up rewrites its status to `COMPLETED`. -/
theorem resume_no_match_noop_cex :
    Orchestrator.run regPass [stepAlpha]
        { baseCtx with status := TaskStatus.running } (some "zz") ≠
      .ok { baseCtx with status := TaskStatus.running } ∧
    Orchestrator.run regPass [stepAlpha]
        { baseCtx with status := TaskStatus.running } (some "zz") =
      .ok { baseCtx with status := TaskStatus.completed } := by
  refine ⟨by decide, by decide⟩

/-- Claim C3 (amended): when `resume_after` names a skill matching no
step of the pipeline, `run` executes nothing and returns the context
unchanged — except that an input status of exactly `RUNNING` is
rewritten to `COMPLETED` by the final fix-up (all other fields, and any
other input status, are returned untouched). -/
theorem resume_no_match_noop_amended (reg : Registry) (steps : List Step)
    (ctx : TaskContext) (t : String)
    (hmem : ∀ s ∈ steps, s.skill_name ≠ t) :
    Orchestrator.run reg steps ctx (some t) =
      .ok (if ctx.status = TaskStatus.running then
            { ctx with status := TaskStatus.completed }
           else ctx) := by
  unfold Orchestrator.run
  exact runAux_skip_all reg t ctx steps hmem

/-- Claim C3, witness for the amended theorem: resume target `zz`,
absent from the one-step `alpha` pipeline, on a fresh (`PENDING`)
context. -/
theorem resume_no_match_noop_amended_witness :
    (∀ s ∈ [stepAlpha], s.skill_name ≠ "zz") ∧
    Orchestrator.run regPass [stepAlpha] baseCtx (some "zz") =
      .ok (if baseCtx.status = TaskStatus.running then
            { baseCtx with status := TaskStatus.completed }
           else baseCtx) :=
  ⟨by decide, resume_no_match_noop_amended regPass [stepAlpha] baseCtx "zz" (by decide)⟩

/-- Claim C4: when control reaches a step whose skip-condition passes
(or is absent) and whose bound handler raises with message `msg`, the
run returns normally (no exception propagates) with exactly one new
record `{skill := s.skill_name, message := msg}` appended to the error
trail, status `FAILED`, the `await_human` flag not applied (the
conclusion holds whatever `s.await_human` is), and no later step
executed (the conclusion does not depend on `rest`). -/
theorem handler_failure_records_one_error (reg : Registry) (s : Step)
    (rest : List Step) (ra : Option String) (ctx : TaskContext)
    (m : SkillMeta) (f : HandlerFn) (msg : String)
    (hcond : ∀ c, s.condition = some c → c ctx = .ok true)
    (hget : SkillRegistry.get? reg s.skill_name = some m)
    (hh : m.handler = some f)
    (hraise : f { ctx with status := TaskStatus.running } = .error msg) :
    Orchestrator.runAux reg ra (s :: rest) false ctx =
      .ok { ctx with
            status := TaskStatus.failed
            errors := ctx.errors ++ [⟨s.skill_name, msg⟩] } := by
  have hcore : s.runCore reg ctx =
      .ok { ctx with
            status := TaskStatus.failed
            errors := ctx.errors ++ [⟨s.skill_name, msg⟩] } := by
    unfold Step.runCore
    rw [hget]
    simp only []
    rw [hh]
    simp only []
    rw [hraise]
    rfl
  have hstep : Step.run s reg ctx =
      .ok { ctx with
            status := TaskStatus.failed
            errors := ctx.errors ++ [⟨s.skill_name, msg⟩] } := by
    unfold Step.run
    cases hc : s.condition with
    | none => exact hcore
    | some cond =>
      simp only []
      rw [hcond cond hc]
      simp only [if_true]
      exact hcore
  simp only [Orchestrator.runAux, Bool.false_eq_true, if_false]
  rw [hstep]
  rfl

/-- Claim C4, witness: the two-step pipeline `[alpha, beta]` where
`alpha`'s handler raises `"boom"` on a fresh context. -/
theorem handler_failure_records_one_error_witness :
    Orchestrator.runAux regBoom none (stepAlpha :: [stepBeta]) false baseCtx =
      .ok { baseCtx with
            status := TaskStatus.failed
            errors := baseCtx.errors ++ [⟨"alpha", "boom"⟩] } :=
  handler_failure_records_one_error regBoom stepAlpha [stepBeta] none baseCtx
    ⟨"alpha", "", "skills/alpha", some boomHandler⟩ boomHandler "boom"
    (fun _ h => nomatch h) rfl rfl rfl

/-- Claim C5, counterexample: "exactly the pipeline's steps" fails as
soon as a step halts the run — in the pipeline `[alpha, beta]` where
`alpha`'s handler raises, only `alpha`'s handler is invoked, so the set
of invoked handlers is not the whole construction order. -/
theorem executed_steps_exact_cex :
    Orchestrator.trace regBoomPass [stepAlpha, stepBeta] baseCtx none = ["alpha"] ∧
    [stepAlpha, stepBeta].map Step.skill_name = ["alpha", "beta"] ∧
    (["alpha"] : List String) ≠ ["alpha", "beta"] := by
  refine ⟨by decide, by decide, by decide⟩

/-- Claim C5 (amended): within one `run` call the handlers invoked are,
in order, a sublist of the construction order when `resume_after` is
absent, and of the steps strictly after the first step matching
`resume_after` when present (it falls short of the full sequence exactly
when a step is condition-skipped or the run halts on failure or
suspension).  In particular: no reordering, no invocation of any step at
or before the resume target, and no step invoked more often than it
occurs in that sequence. -/
theorem executed_steps_follow_plan (reg : Registry) (steps : List Step)
    (ctx : TaskContext) (ra : Option String) :
    List.Sublist (Orchestrator.trace reg steps ctx ra) (plannedSkills ra steps) := by
  cases ra with
  | none => exact traceAux_sublist_names reg none steps ctx
  | some t =>
    unfold Orchestrator.trace
    rw [Option.isSome_some, traceAux_skip_eq_dropThrough reg t steps ctx]
    exact traceAux_sublist_names reg (some t) (dropThrough t steps) ctx

/-- Claim C6: when control reaches a step flagged `await_human` whose
skip-condition passes (or is absent) and whose handler completes
successfully with `ctx2`, the run returns `ctx2` with status
`AWAITING_HUMAN` immediately — the conclusion does not depend on `rest`,
so no subsequent step executes, at whatever position the step sits. -/
theorem await_human_suspends (reg : Registry) (s : Step) (rest : List Step)
    (ra : Option String) (ctx ctx2 : TaskContext) (m : SkillMeta) (f : HandlerFn)
    (hawait : s.await_human = true)
    (hcond : ∀ c, s.condition = some c → c ctx = .ok true)
    (hget : SkillRegistry.get? reg s.skill_name = some m)
    (hh : m.handler = some f)
    (hok : f { ctx with status := TaskStatus.running } = .ok ctx2) :
    Orchestrator.runAux reg ra (s :: rest) false ctx =
      .ok { ctx2 with status := TaskStatus.awaiting_human } := by
  have hcore : s.runCore reg ctx =
      .ok { ctx2 with status := TaskStatus.awaiting_human } := by
    unfold Step.runCore
    rw [hget]
    simp only []
    rw [hh]
    simp only []
    rw [hok]
    simp only []
    rw [if_pos hawait]
  have hstep : Step.run s reg ctx =
      .ok { ctx2 with status := TaskStatus.awaiting_human } := by
    unfold Step.run
    cases hc : s.condition with
    | none => exact hcore
    | some cond =>
      simp only []
      rw [hcond cond hc]
      simp only [if_true]
      exact hcore
  simp only [Orchestrator.runAux, Bool.false_eq_true, if_false]
  rw [hstep]
  rfl

/-- Claim C6, witness: `alpha` flagged `await_human` at the head of a
two-step pipeline suspends the run before `beta`. -/
theorem await_human_suspends_witness :
    Orchestrator.runAux regPass none (stepAwait :: [stepBeta]) false baseCtx =
      .ok { { baseCtx with status := TaskStatus.running } with
            status := TaskStatus.awaiting_human } :=
  await_human_suspends regPass stepAwait [stepBeta] none baseCtx
    { baseCtx with status := TaskStatus.running }
    ⟨"alpha", "", "skills/alpha", some passHandler⟩ passHandler
    rfl (fun _ h => nomatch h) rfl rfl rfl

/-- Claim C7, counterexample: a skip-condition that raises is *not*
recorded in the error trail and does not surface as `FAILED` — the
exception propagates out of `Orchestrator.run`, leaving the context as
it was (empty trail, status still `PENDING`). -/
theorem cond_raise_handled_cex :
    Orchestrator.run regPass [stepBadCond] baseCtx none =
      .error (.fromCondition "cond-boom", baseCtx) ∧
    baseCtx.errors = [] ∧
    baseCtx.status ≠ TaskStatus.failed := by
  refine ⟨by decide, by decide, by decide⟩

/-- Claim C7 (amended): a skip-condition that raises is treated like a
configuration error, not a handler error: the exception propagates
synchronously out of `Orchestrator.run`, nothing is appended to the
error trail, the status is not set to `FAILED`, and the context escapes
exactly as it entered the step. -/
theorem cond_raise_propagates_amended (reg : Registry) (s : Step)
    (rest : List Step) (ra : Option String) (ctx : TaskContext)
    (cond : CondFn) (msg : String)
    (hc : s.condition = some cond) (hraise : cond ctx = .error msg) :
    Orchestrator.runAux reg ra (s :: rest) false ctx =
      .error (.fromCondition msg, ctx) := by
  have hstep : Step.run s reg ctx = .error (.fromCondition msg, ctx) := by
    unfold Step.run
    rw [hc]
    simp only []
    rw [hraise]
  simp only [Orchestrator.runAux, Bool.false_eq_true, if_false]
  rw [hstep]

/-- Claim C7, witness for the amended theorem: the step with the raising
condition propagates `cond-boom` with the fresh context untouched. -/
theorem cond_raise_propagates_amended_witness :
    Orchestrator.runAux regPass none (stepBadCond :: []) false baseCtx =
      .error (.fromCondition "cond-boom", baseCtx) :=
  cond_raise_propagates_amended regPass stepBadCond [] none baseCtx
    (fun _ => .error "cond-boom") "cond-boom" rfl rfl

/-- Claim C8: when control reaches a step whose skip-condition passes
(or is absent) and whose skill is either absent from the registry or
has no bound handler, the corresponding exception (`KeyError`,
respectively the `RuntimeError` for an unbound handler) propagates
synchronously out of `Orchestrator.run`, carrying the context exactly
as it entered the step: nothing appended to the error trail, status
untouched (in particular not `FAILED`). -/
theorem config_error_propagates (reg : Registry) (s : Step) (rest : List Step)
    (ra : Option String) (ctx : TaskContext)
    (hcond : ∀ c, s.condition = some c → c ctx = .ok true) :
    (SkillRegistry.get? reg s.skill_name = none →
      Orchestrator.runAux reg ra (s :: rest) false ctx =
        .error (.keyError s.skill_name, ctx)) ∧
    (∀ m, SkillRegistry.get? reg s.skill_name = some m → m.handler = none →
      Orchestrator.runAux reg ra (s :: rest) false ctx =
        .error (.handlerUnbound s.skill_name, ctx)) := by
  have hstep : ∀ e, s.runCore reg ctx = .error e →
      Orchestrator.runAux reg ra (s :: rest) false ctx = .error e := by
    intro e hcore
    have hrun : Step.run s reg ctx = .error e := by
      unfold Step.run
      cases hc : s.condition with
      | none => exact hcore
      | some cond =>
        simp only []
        rw [hcond cond hc]
        simp only [if_true]
        exact hcore
    simp only [Orchestrator.runAux, Bool.false_eq_true, if_false]
    rw [hrun]
  constructor
  · intro hget
    apply hstep
    unfold Step.runCore
    rw [hget]
  · intro m hget hh
    apply hstep
    unfold Step.runCore
    rw [hget]
    simp only []
    rw [hh]

/-- Claim C8, witness: both configuration errors at concrete inputs —
an empty registry (skill never discovered) and a registry where `alpha`
is discovered but unbound. -/
theorem config_error_propagates_witness :
    Orchestrator.runAux [] none (stepAlpha :: []) false baseCtx =
      .error (.keyError "alpha", baseCtx) ∧
    Orchestrator.runAux regUnbound none (stepAlpha :: []) false baseCtx =
      .error (.handlerUnbound "alpha", baseCtx) :=
  ⟨(config_error_propagates [] stepAlpha [] none baseCtx
      (fun _ h => nomatch h)).1 rfl,
   (config_error_propagates regUnbound stepAlpha [] none baseCtx
      (fun _ h => nomatch h)).2 ⟨"alpha", "", "skills/alpha", none⟩ rfl rfl⟩

/-- Claim C9: with handlers that only ever extend the trail, the error
trail is append-only through `Step.run` and through `Orchestrator.run`,
on every exit path (ordinary return or propagated exception): the
errors list at the call is a prefix of the errors list at return, and
the core's own operations (`add_error`) only append — they never clear,
remove, or modify existing records. -/
theorem error_trail_append_only (reg : Registry) (hE : HandlersKeepErrors reg) :
    (∀ (s : Step) (ctx ctx' : TaskContext),
      s.run reg ctx = .ok ctx' → ctx.errors <+: ctx'.errors) ∧
    (∀ (s : Step) (ctx c' : TaskContext) (e : UncaughtExn),
      s.run reg ctx = .error (e, c') → ctx.errors <+: c'.errors) ∧
    (∀ (steps : List Step) (ctx ctx' : TaskContext) (ra : Option String),
      Orchestrator.run reg steps ctx ra = .ok ctx' → ctx.errors <+: ctx'.errors) ∧
    (∀ (steps : List Step) (ctx c' : TaskContext) (ra : Option String)
        (e : UncaughtExn),
      Orchestrator.run reg steps ctx ra = .error (e, c') →
      ctx.errors <+: c'.errors) :=
  ⟨fun s ctx ctx' h => (stepRun_errors_extend reg s ctx hE).1 ctx' h,
   fun s ctx c' e h => (stepRun_errors_extend reg s ctx hE).2 e c' h,
   fun steps ctx ctx' ra h =>
     (runAux_errors_extend reg ra hE steps ra.isSome ctx).1 ctx' h,
   fun steps ctx c' ra e h =>
     (runAux_errors_extend reg ra hE steps ra.isSome ctx).2 e c' h⟩

/-- Claim C9, witness: the pass-through registry keeps trails intact,
and a concrete run from a context already carrying one record returns a
trail it is a prefix of. -/
theorem error_trail_append_only_witness :
    ({ baseCtx with errors := [⟨"earlier", "x"⟩] } : TaskContext).errors <+:
      ({ baseCtx with errors := [⟨"earlier", "x"⟩], status := TaskStatus.completed } : TaskContext).errors :=
  (error_trail_append_only regPass
    (by
      intro n m h c c' h1 h2 h3
      simp only [regPass, SkillRegistry.get?] at h1
      by_cases hn : "alpha" = n
      · rw [if_pos hn] at h1
        cases h1
        cases h2
        cases h3
        exact errors_extend_refl _
      · rw [if_neg hn] at h1
        cases h1)).2.2.1 [stepAlpha]
    { baseCtx with errors := [⟨"earlier", "x"⟩] }
    { baseCtx with errors := [⟨"earlier", "x"⟩], status := TaskStatus.completed }
    none
    (by decide)

/-- Claim C10: `SkillRegistry.load_all` clears the registry before the
existence check on the skills directory, so a missing directory leaves
an empty registry behind the raised `FileNotFoundError`: whatever the
prior contents were, `list_skills()` afterwards returns the empty
list — discovery failure is not atomic with respect to prior state. -/
theorem load_all_missing_root_clears (fs : SkillsFS) (prior : Registry)
    (hroot : fs.root_exists = false) :
    SkillRegistry.load_all fs prior = ([], some LoadError.fileNotFound) ∧
    SkillRegistry.list_skills (SkillRegistry.load_all fs prior).1 = [] := by
  have h1 : SkillRegistry.load_all fs prior = ([], some LoadError.fileNotFound) := by
    unfold SkillRegistry.load_all
    rw [hroot]
    rfl
  exact ⟨h1, by rw [h1]; rfl⟩

/-- Claim C10, witness: a missing skills root with a previously
populated registry. -/
theorem load_all_missing_root_clears_witness :
    SkillRegistry.load_all ⟨false, []⟩ regPass = ([], some LoadError.fileNotFound) ∧
    SkillRegistry.list_skills (SkillRegistry.load_all ⟨false, []⟩ regPass).1 = [] :=
  load_all_missing_root_clears ⟨false, []⟩ regPass rfl
